import Mathlib

/-!
Verification of the Sensitive-Log-Cleaner core against its specification.

The development shallowly embeds the masking engine (`src/core/scrubber.js`),
the file pipeline (`src/core/processor.js`, including its `Semaphore`), the
pause controller (`main.js`), and the default rule catalog
(`src/core/config.js`).  JavaScript strings are modelled as `List Char`,
mutable statistics as explicitly threaded state, JS exceptions as
`Except String` / explicit outcome parameters, and the regex literals of the
source as direct character-level scanners with the same backtracking
behaviour.  Recursion that is unbounded in the source (nested JSON-in-string
masking, scanning loops) is modelled with an explicit fuel argument that is
always instantiated large enough to be inexhaustible on the given input.
-/

namespace LogCleaner

set_option maxRecDepth 40000

/-- Shorthand: the character list of a string literal. -/
def strL (s : String) : List Char := s.data

/-! ### JavaScript character classes

`isWordChar` is the JS regex `\w` class `[A-Za-z0-9_]`; `isJsWs` is the JS
`\s` class (which also backs `String.prototype.trim`). -/

def isWordChar (c : Char) : Bool :=
  c.isAlpha || c.isDigit || c = '_'

def isJsWs (c : Char) : Bool :=
  c = ' ' || c = '\t' || c = '\n' || c = '\r' ||
  c.toNat = 11 || c.toNat = 12 ||
  c.toNat = 0xa0 || c.toNat = 0x1680 ||
  (0x2000 ≤ c.toNat && c.toNat ≤ 0x200a) ||
  c.toNat = 0x2028 || c.toNat = 0x2029 || c.toNat = 0x202f ||
  c.toNat = 0x205f || c.toNat = 0x3000 || c.toNat = 0xfeff

/-- ASCII lower-casing of one character (JS `toLowerCase` on the ASCII
letters actually occurring in keys and matched tokens). -/
def lowerChar (c : Char) : Char :=
  if 'A' ≤ c && c ≤ 'Z' then Char.ofNat (c.toNat + 32) else c

def lowerStr (l : List Char) : List Char := l.map lowerChar

/-- `String.prototype.trim`: drop JS whitespace from both ends. -/
def jsTrim (l : List Char) : List Char :=
  ((l.dropWhile isJsWs).reverse.dropWhile isJsWs).reverse

/-- Strip a literal from the front of a list (exact characters).
Returns the remainder on success. -/
def dropStart : List Char → List Char → Option (List Char)
  | [], l => some l
  | _ :: _, [] => none
  | p :: ps, c :: cs => if c = p then dropStart ps cs else none

/-- Case-insensitive variant of `dropStart` (JS regex `i` flag on ASCII).
Returns the actually consumed characters (original case) and the rest. -/
def ciDropStart : List Char → List Char → Option (List Char × List Char)
  | [], l => some ([], l)
  | _ :: _, [] => none
  | p :: ps, c :: cs =>
    if lowerChar c = lowerChar p then
      (ciDropStart ps cs).map (fun ar => (c :: ar.1, ar.2))
    else none

/-- `String.prototype.replace(pat, repl)` with a plain-string pattern:
replace the first occurrence of `pat` only. -/
def replaceFirstSub (pat repl : List Char) : List Char → List Char
  | [] => if pat = [] then repl else []
  | c :: cs =>
    if pat.isPrefixOf (c :: cs) then repl ++ (c :: cs).drop pat.length
    else c :: replaceFirstSub pat repl cs

/-! ### JSON values (`JSON.parse` / `JSON.stringify` model)

JS objects coming out of `JSON.parse` are string-keyed and iterate in
insertion order; duplicate keys keep the first position with the last value.
Numbers are kept as their source lexeme (the inputs relevant to the claims
contain no numbers, so double re-formatting is not modelled). -/

inductive JVal where
  | jnull : JVal
  | jbool : Bool → JVal
  | jnum : List Char → JVal
  | jstr : List Char → JVal
  | jarr : List JVal → JVal
  | jobj : List (List Char × JVal) → JVal

/-- JSON (RFC 8259) whitespace, as skipped by `JSON.parse`: space, tab,
line feed, carriage return. -/
def isJsonWs (c : Char) : Bool :=
  c.toNat = 32 || c.toNat = 9 || c.toNat = 10 || c.toNat = 13

def skipWs (l : List Char) : List Char := l.dropWhile isJsonWs

/-- Value of one hexadecimal digit (`48..57` are `0-9`, `97..102` are
`a-f`, `65..70` are `A-F`). -/
def hexVal (c : Char) : Option Nat :=
  if 48 ≤ c.toNat && c.toNat ≤ 57 then some (c.toNat - 48)
  else if 97 ≤ c.toNat && c.toNat ≤ 102 then some (c.toNat - 87)
  else if 65 ≤ c.toNat && c.toNat ≤ 70 then some (c.toNat - 55)
  else none

/-- The single-character JSON escapes; `\u` is handled separately. -/
def escChar (e : Char) : Option Char :=
  if e = '"' || e = '\\' || e = '/' then some e
  else if e = 'b' then some (Char.ofNat 8)
  else if e = 'f' then some (Char.ofNat 12)
  else if e = 'n' then some (Char.ofNat 10)
  else if e = 'r' then some (Char.ofNat 13)
  else if e = 't' then some (Char.ofNat 9)
  else none

/-- Body of a JSON string literal, after the opening quote.  Returns the
unescaped content and the rest after the closing quote. -/
def parseStrBody : List Char → List Char → Option (List Char × List Char)
  | acc, '"' :: r => some (acc.reverse, r)
  | acc, '\\' :: e :: r =>
    if e = 'u' then
      match r with
      | h1 :: h2 :: h3 :: h4 :: r2 =>
        match [h1, h2, h3, h4].mapM hexVal with
        | some ds =>
          parseStrBody (Char.ofNat (ds.foldl (fun a d => a * 16 + d) 0) :: acc) r2
        | none => none
      | _ => none
    else
      match escChar e with
      | some c => parseStrBody (c :: acc) r
      | none => none
  | acc, c :: r => if c.toNat < 32 then none else parseStrBody (c :: acc) r
  | _, [] => none

/-- A JSON string literal including the opening quote. -/
def parseStr : List Char → Option (List Char × List Char)
  | '"' :: r => parseStrBody [] r
  | _ => none

def isDigitChar (c : Char) : Bool := 48 ≤ c.toNat && c.toNat ≤ 57

/-- A JSON number; the lexeme is kept verbatim. -/
def parseNum (l : List Char) : Option (List Char × List Char) :=
  let (sign, l1) := match l with
    | '-' :: r => (['-'], r)
    | _ => (([] : List Char), l)
  match l1 with
  | [] => none
  | c :: _ =>
    if ¬ isDigitChar c then none
    else
      let intPart := if c = '0' then ['0'] else l1.takeWhile isDigitChar
      let l2 := l1.drop intPart.length
      let (frac, l3) := match l2 with
        | '.' :: r =>
          let ds := r.takeWhile isDigitChar
          if ds = [] then ([], l2) else ('.' :: ds, r.drop ds.length)
        | _ => (([] : List Char), l2)
      if l2 ≠ l3 ∨ l2.head? ≠ some '.' then
        let (ex, l4) := match l3 with
          | e :: r =>
            if e = 'e' ∨ e = 'E' then
              let (sg, r1) := match r with
                | s :: r' => if s = '+' ∨ s = '-' then ([s], r') else ([], r)
                | [] => ([], r)
              let ds := r1.takeWhile isDigitChar
              if ds = [] then (([] : List Char), l3)
              else (e :: (sg ++ ds), r1.drop ds.length)
            else ([], l3)
          | [] => ([], l3)
        some (sign ++ intPart ++ frac ++ ex, l4)
      else none

/-- Insert a key into a parsed object: a duplicate key keeps its first
position but takes the later value (JS semantics for string keys). -/
def objInsert (k : List Char) (v : JVal) :
    List (List Char × JVal) → List (List Char × JVal)
  | [] => [(k, v)]
  | kv :: rest => if kv.1 = k then (k, v) :: rest else kv :: objInsert k v rest

mutual

/-- One JSON value (recursive descent, fuel-bounded). -/
def parseVal : Nat → List Char → Option (JVal × List Char)
  | 0, _ => none
  | n + 1, l =>
    match skipWs l with
    | '{' :: r =>
      match skipWs r with
      | '}' :: r' => some (.jobj [], r')
      | r' => (parseMembers n r' []).map (fun p => (.jobj p.1, p.2))
    | '[' :: r =>
      match skipWs r with
      | ']' :: r' => some (.jarr [], r')
      | r' => (parseItems n r' []).map (fun p => (.jarr p.1, p.2))
    | '"' :: r => (parseStrBody [] r).map (fun p => (.jstr p.1, p.2))
    | 't' :: 'r' :: 'u' :: 'e' :: r => some (.jbool true, r)
    | 'f' :: 'a' :: 'l' :: 's' :: 'e' :: r => some (.jbool false, r)
    | 'n' :: 'u' :: 'l' :: 'l' :: r => some (.jnull, r)
    | l' => (parseNum l').map (fun p => (.jnum p.1, p.2))

/-- Object members after `{` (at least one expected). -/
def parseMembers : Nat → List Char → List (List Char × JVal) →
    Option (List (List Char × JVal) × List Char)
  | 0, _, _ => none
  | n + 1, l, acc =>
    match parseStr (skipWs l) with
    | none => none
    | some (k, r1) =>
      match skipWs r1 with
      | ':' :: r2 =>
        match parseVal n r2 with
        | none => none
        | some (v, r3) =>
          let acc' := objInsert k v acc
          match skipWs r3 with
          | ',' :: r4 => parseMembers n r4 acc'
          | '}' :: r4 => some (acc', r4)
          | _ => none
      | _ => none

/-- Array items after `[` (at least one expected). -/
def parseItems : Nat → List Char → List JVal →
    Option (List JVal × List Char)
  | 0, _, _ => none
  | n + 1, l, acc =>
    match parseVal n l with
    | none => none
    | some (v, r1) =>
      match skipWs r1 with
      | ',' :: r2 => parseItems n r2 (acc ++ [v])
      | ']' :: r2 => some (acc ++ [v], r2)
      | _ => none

end

/-- `JSON.parse`: the whole input must be one value plus whitespace. -/
def parseJson (l : List Char) : Option JVal :=
  match parseVal (l.length + 1) l with
  | some (v, rest) => if skipWs rest = [] then some v else none
  | none => none

/-- Lower-case hexadecimal digit for a value below sixteen. -/
def hexDigit (n : Nat) : Char :=
  Char.ofNat (if n < 10 then 48 + n else 87 + n)

/-- `JSON.stringify` escaping of one string character: quote and backslash
escape to themselves, the named control characters to their short forms,
any other control character to `\u00XX`. -/
def quoteChar (c : Char) : List Char :=
  if c = '"' || c = '\\' then [Char.ofNat 92, c]
  else if c.toNat = 10 then [Char.ofNat 92, 'n']
  else if c.toNat = 13 then [Char.ofNat 92, 'r']
  else if c.toNat = 9 then [Char.ofNat 92, 't']
  else if c.toNat = 8 then [Char.ofNat 92, 'b']
  else if c.toNat = 12 then [Char.ofNat 92, 'f']
  else if c.toNat < 32 then
    [Char.ofNat 92, 'u', '0', '0', hexDigit (c.toNat / 16), hexDigit (c.toNat % 16)]
  else [c]

def quoteStr (s : List Char) : List Char :=
  '"' :: (s.flatMap quoteChar) ++ ['"']

def joinComma : List (List Char) → List Char
  | [] => []
  | [x] => x
  | x :: xs => x ++ ',' :: joinComma xs

/-- `JSON.stringify` with no indentation (fuel-bounded recursion; the fuel is
always at least the value's depth at every call site). -/
def stringifyF : Nat → JVal → List Char
  | 0, _ => []
  | n + 1, v =>
    match v with
    | .jnull => strL "null"
    | .jbool true => strL "true"
    | .jbool false => strL "false"
    | .jnum lex => lex
    | .jstr s => quoteStr s
    | .jarr xs => '[' :: joinComma (xs.map (stringifyF n)) ++ [']']
    | .jobj kvs =>
      '{' :: joinComma (kvs.map (fun kv => quoteStr kv.1 ++ ':' :: stringifyF n kv.2)) ++ ['}']

/-! ### Rule catalog (`src/core/config.js`) -/

/-- `SENSITIVE_KEYS` from `config.js`, in source order (a JS `Set` iterates in
insertion order). -/
def SENSITIVE_KEYS : List String :=
  ["password", "passwd", "pwd", "pass", "passphrase",
   "token", "access_token", "refresh_token", "auth_token", "api_token", "bearer_token",
   "authorization", "auth", "bearer", "oauth", "jwt",
   "cookie", "session", "sessionid", "jsessionid", "csrf_token", "xsrf_token",
   "secret", "key", "private_key", "public_key", "api_key", "app_key", "app_secret",
   "client_secret", "consumer_secret", "encryption_key", "decrypt_key",
   "credential", "credentials", "cred", "cert", "certificate",
   "signature", "sign", "hash", "salt",
   "pin", "code", "otp", "captcha", "verification_code", "verify_code",
   "db_password", "database_password", "mysql_password", "redis_password",
   "connection_string", "dsn",
   "cvv", "cvc", "security_code", "card_number", "account_number",
   "bank_account", "payment_method"]

def KV_SEPARATORS : List String := ["=", ":", "=>", "->"]

def DEFAULT_MASK : String := "***"

/-- The scrubber options fixed at construction (`LogScrubber` constructor,
scrubber.js 13-51). -/
structure ScrubberConfig where
  enableMasking : Bool
  maskUrlParams : Bool
  sensitiveKeys : List (List Char)
  kvSeparators : List (List Char)
  defaultMask : List Char

/-- Default configuration: the constructor lower-cases the key list and keeps
the built-in separators and mask. -/
def cfgDefault : ScrubberConfig :=
  { enableMasking := true
    maskUrlParams := true
    sensitiveKeys := SENSITIVE_KEYS.map (fun s => lowerStr (strL s))
    kvSeparators := KV_SEPARATORS.map strL
    defaultMask := strL DEFAULT_MASK }

/-! ### `maskKeyValuePairs` (scrubber.js 174-207)

The regex is `(\b[\w.-]+)(\s*(?:=|:|=>|->)\s*)([^\s\n\r]+)` with flags `gi`,
applied by a left-to-right global replace.  The scanners below reproduce the
backtracking behaviour of that regex: the greedy key run `[\w.-]+` is shrunk
one character at a time when no separator alternative matches after it (this
is what lets `a->b` match with separator `->` although `-` is a key
character), and the separator alternation is tried in catalog order. -/

def keyClass (c : Char) : Bool := isWordChar c || c = '.' || c = '-'

/-- Try the separator alternatives in order after the leading `\s*` run. -/
def kvTrySeps (ws1 t2 : List Char) :
    List (List Char) → Option (List Char × List Char × List Char)
  | [] => none
  | sep :: more =>
    match dropStart sep t2 with
    | some t3 =>
      if ((t3.dropWhile isJsWs).takeWhile (fun c => !(isJsWs c))) = [] then
        kvTrySeps ws1 t2 more
      else
        some (ws1 ++ sep ++ t3.takeWhile isJsWs,
              (t3.dropWhile isJsWs).takeWhile (fun c => !(isJsWs c)),
              (t3.dropWhile isJsWs).dropWhile (fun c => !(isJsWs c)))
    | none => kvTrySeps ws1 t2 more

def kvAfterKey (seps : List (List Char)) (tail : List Char) :
    Option (List Char × List Char × List Char) :=
  kvTrySeps (tail.takeWhile isJsWs) (tail.dropWhile isJsWs) seps

/-- Backtrack the greedy key run from its maximal length down to one. -/
def kvTryLens (seps : List (List Char)) (kmax rest0 : List Char) :
    Nat → Option (List Char × List Char × List Char × List Char)
  | 0 => none
  | klen + 1 =>
    match kvAfterKey seps (kmax.drop (klen + 1) ++ rest0) with
    | some (sep, v, r) => some (kmax.take (klen + 1), sep, v, r)
    | none => kvTryLens seps kmax rest0 klen

/-- Attempt the kv regex at the current position.  `prevWord` is the
word-character status of the preceding character (for `\b`). -/
def kvMatchAt (seps : List (List Char)) (prevWord : Bool) (l : List Char) :
    Option (List Char × List Char × List Char × List Char) :=
  match l with
  | [] => none
  | c :: _ =>
    if prevWord = isWordChar c then none
    else
      let kmax := l.takeWhile keyClass
      kvTryLens seps kmax (l.dropWhile keyClass) kmax.length

/-- The global replace of `maskKeyValuePairs`: at each match, a sensitive key
keeps the key and separator text and substitutes the mask for the value; any
other match is emitted unchanged.  The fuel is `length + 1`, which the scan
can never exhaust because every step consumes at least one character. -/
def kvScan (keys : List (List Char)) (mask : List Char)
    (seps : List (List Char)) : Nat → Bool → List Char → List Char × Bool
  | 0, _, l => (l, false)
  | _ + 1, _, [] => ([], false)
  | n + 1, pw, c :: cs =>
    match kvMatchAt seps pw (c :: cs) with
    | some (k, sep, v, rest) =>
      let (out, flag) := kvScan keys mask seps n (isWordChar (v.getLastD ' ')) rest
      if keys.contains (lowerStr k) then (k ++ sep ++ mask ++ out, true)
      else (k ++ sep ++ v ++ out, flag)
    | none =>
      let (out, flag) := kvScan keys mask seps n (isWordChar c) cs
      (c :: out, flag)

def maskKeyValuePairs (cfg : ScrubberConfig) (line : List Char) :
    List Char × Bool :=
  kvScan cfg.sensitiveKeys cfg.defaultMask cfg.kvSeparators (line.length + 1) false line

/-! ### `maskSensitiveKeywords` (scrubber.js 212-253)

The regex is `\b(?:k1|k2|...)\b\s*[:=]\s*([^\s\n\r,;&]+)` with flags `gi`,
keys in `Set` iteration order.  The replacement is
`match.replace(value, defaultMask)`, i.e. the first occurrence of the value
text inside the match is substituted. -/

def kwValClass (c : Char) : Bool :=
  !(isJsWs c) && c != ',' && c != ';' && c != '&'

/-- Try the keyword alternatives in order; a failing alternative falls
through to the next one. -/
def kwTryKeys (pw : Bool) (l : List Char) :
    List (List Char) → Option (List Char × List Char × List Char)
  | [] => none
  | k :: ks =>
    match ciDropStart k l with
    | some (actual, t1) =>
      let okBefore := match k with
        | kc :: _ => pw != isWordChar kc
        | [] => false
      let okAfter := match t1 with
        | [] => isWordChar (k.getLastD ' ')
        | c2 :: _ => isWordChar (k.getLastD ' ') != isWordChar c2
      if okBefore && okAfter then
        let ws1 := t1.takeWhile isJsWs
        match t1.dropWhile isJsWs with
        | sc :: t3 =>
          if sc = ':' || sc = '=' then
            let ws2 := t3.takeWhile isJsWs
            let t4 := t3.dropWhile isJsWs
            let v := t4.takeWhile kwValClass
            if v = [] then kwTryKeys pw l ks
            else some (actual ++ ws1 ++ sc :: ws2 ++ v, v, t4.dropWhile kwValClass)
          else kwTryKeys pw l ks
        | [] => kwTryKeys pw l ks
      else kwTryKeys pw l ks
    | none => kwTryKeys pw l ks

def kwScan (keys : List (List Char)) (mask : List Char) :
    Nat → Bool → List Char → List Char × Bool
  | 0, _, l => (l, false)
  | _ + 1, _, [] => ([], false)
  | n + 1, pw, c :: cs =>
    match kwTryKeys pw (c :: cs) keys with
    | some (m, v, rest) =>
      let (out, _) := kwScan keys mask n (isWordChar (m.getLastD ' ')) rest
      (replaceFirstSub v mask m ++ out, true)
    | none =>
      let (out, flag) := kwScan keys mask n (isWordChar c) cs
      (c :: out, flag)

def maskSensitiveKeywords (cfg : ScrubberConfig) (line : List Char) :
    List Char × Bool :=
  kwScan cfg.sensitiveKeys cfg.defaultMask (line.length + 1) false line

/-! ### The default enabled patterns (`config.js` `PATTERNS`)

Only the five patterns with `enabled: true` survive the constructor's filter:
`chinese_phone`, `email`, `chinese_id_card`, `jwt_token`, `base64_data`.
Each is a direct character-level transcription of its regex literal,
including the backtracking that the greedy quantifiers force. -/

/-- Generic left-to-right global scan driving a position matcher; returns the
replaced string and the number of matches (`match(regex).length` and
`replace(regex, ...)` use the same match sequence).  The matcher receives
the word-character status of the previous character for `\b` and yields
(matched text, replacement, rest). -/
def gScan (m : Bool → List Char → Option (List Char × List Char × List Char)) :
    Nat → Bool → List Char → List Char × Nat
  | 0, _, l => (l, 0)
  | _ + 1, _, [] => ([], 0)
  | n + 1, pw, c :: cs =>
    match m pw (c :: cs) with
    | some (mt, rep, rest) =>
      let (out, k) := gScan m n (isWordChar (mt.getLastD ' ')) rest
      (rep ++ out, k + 1)
    | none =>
      let (out, k) := gScan m n (isWordChar c) cs
      (c :: out, k)

def boundaryAfter (l : List Char) (lastW : Bool) : Bool :=
  match l with
  | [] => lastW
  | c :: _ => lastW != isWordChar c

/-- `chinese_phone`: `\b(1[3-9]\d)(\d{4})(\d{4})\b` → `$1****$3`. -/
def phoneMatchAt (pw : Bool) (l : List Char) :
    Option (List Char × List Char × List Char) :=
  match l with
  | c0 :: c1 :: r2 =>
    if pw then none
    else if c0 = '1' && '3' ≤ c1 && c1 ≤ '9' then
      let d9 := r2.take 9
      let rest := r2.drop 9
      if d9.length = 9 && d9.all isDigitChar && boundaryAfter rest true then
        let mt := c0 :: c1 :: d9
        let g1 := c0 :: c1 :: d9.take 1
        let g3 := d9.drop 5
        some (mt, g1 ++ strL "****" ++ g3, rest)
      else none
    else none
  | _ => none

/-- `email`: `\b[A-Za-z0-9._%+-]+@[A-Za-z0-9.-]+\.[A-Za-z]{2,}\b` →
`***@***.***`.  The local run needs no backtracking (`@` is not in the
class); the domain run is shrunk from its maximal length until
`\.[A-Za-z]{2,}\b` matches after it. -/
def emailLocalClass (c : Char) : Bool :=
  c.isAlpha || c.isDigit || c = '.' || c = '_' || c = '%' || c = '+' || c = '-'

def emailDomClass (c : Char) : Bool :=
  c.isAlpha || c.isDigit || c = '.' || c = '-'

def emailShrink (loc dom rest : List Char) :
    Nat → Option (List Char × List Char × List Char)
  | 0 => none
  | k + 1 =>
    let d1 := dom.take (k + 1)
    match dom.drop (k + 1) ++ rest with
    | '.' :: t2 =>
      let tld := t2.takeWhile Char.isAlpha
      if 2 ≤ tld.length then
        let after := t2.drop tld.length
        if boundaryAfter after true then
          let mt := loc ++ '@' :: d1 ++ '.' :: tld
          some (mt, strL "***@***.***", after)
        else emailShrink loc dom rest k
      else emailShrink loc dom rest k
    | _ => emailShrink loc dom rest k

def emailMatchAt (pw : Bool) (l : List Char) :
    Option (List Char × List Char × List Char) :=
  match l with
  | [] => none
  | c :: _ =>
    if pw = isWordChar c then none
    else
      let loc := l.takeWhile emailLocalClass
      if loc = [] then none
      else
        match l.drop loc.length with
        | '@' :: t1 =>
          let dom := t1.takeWhile emailDomClass
          if dom = [] then none
          else emailShrink loc dom (t1.drop dom.length) dom.length
        | _ => none

/-- `chinese_id_card`:
`\b(\d{3})\d{6}(19|20)\d{2}(0[1-9]|1[0-2])(0[1-9]|[12]\d|3[01])\d{3}[\dXx]\b`
→ `$1` followed by fifteen `*`. -/
def idCardMatchAt (pw : Bool) (l : List Char) :
    Option (List Char × List Char × List Char) :=
  if pw then none
  else
    match l with
    | a1 :: a2 :: a3 :: b1 :: b2 :: b3 :: b4 :: b5 :: b6 ::
      y1 :: y2 :: y3 :: y4 :: m1 :: m2 :: d1 :: d2 :: s1 :: s2 :: s3 :: ck :: rest =>
      let digs := [a1, a2, a3, b1, b2, b3, b4, b5, b6, y3, y4, s1, s2, s3]
      if digs.all isDigitChar
          && ((y1 = '1' && y2 = '9') || (y1 = '2' && y2 = '0'))
          && ((m1 = '0' && '1' ≤ m2 && m2 ≤ '9') || (m1 = '1' && '0' ≤ m2 && m2 ≤ '2'))
          && ((d1 = '0' && '1' ≤ d2 && d2 ≤ '9')
              || ((d1 = '1' || d1 = '2') && isDigitChar d2)
              || (d1 = '3' && (d2 = '0' || d2 = '1')))
          && (isDigitChar ck || ck = 'X' || ck = 'x')
          && boundaryAfter rest true then
        let mt := [a1, a2, a3, b1, b2, b3, b4, b5, b6, y1, y2, y3, y4,
                   m1, m2, d1, d2, s1, s2, s3, ck]
        some (mt, [a1, a2, a3] ++ List.replicate 15 '*', rest)
      else none
    | _ => none

/-- `jwt_token`: `\b[A-Za-z0-9-_]+\.[A-Za-z0-9-_]+\.[A-Za-z0-9-_]+\b` →
`eyJ***.***.***.***`.  Only the trailing segment needs backtracking (its run
may end with `-`, a non-word character, making the final `\b` fail). -/
def jwtClass (c : Char) : Bool :=
  c.isAlpha || c.isDigit || c = '-' || c = '_'

def jwtShrink (r3 rest : List Char) : Nat → Option (List Char × List Char)
  | 0 => none
  | len + 1 =>
    let seg := r3.take (len + 1)
    let after := r3.drop (len + 1) ++ rest
    if boundaryAfter after (isWordChar (seg.getLastD ' ')) then some (seg, after)
    else jwtShrink r3 rest len

def jwtMatchAt (pw : Bool) (l : List Char) :
    Option (List Char × List Char × List Char) :=
  match l with
  | [] => none
  | c :: _ =>
    if pw = isWordChar c then none
    else
      let r1 := l.takeWhile jwtClass
      if r1 = [] then none
      else
        match l.drop r1.length with
        | '.' :: t1 =>
          let r2 := t1.takeWhile jwtClass
          if r2 = [] then none
          else
            match t1.drop r2.length with
            | '.' :: t2 =>
              let r3 := t2.takeWhile jwtClass
              if r3 = [] then none
              else
                match jwtShrink r3 (t2.drop r3.length) r3.length with
                | some (seg, after) =>
                  some (r1 ++ '.' :: r2 ++ '.' :: seg, strL "eyJ***.***.***.***", after)
                | none => none
            | _ => none
        | _ => none

/-- `base64_data`: `\b[A-Za-z0-9+/]{20,}={0,2}\b` → `base64EncodedData***`.
The run is shrunk from its maximal length down to twenty, and for each run
length the greedy `={0,2}` is tried with two, one and zero `=`. -/
def b64Class (c : Char) : Bool :=
  c.isAlpha || c.isDigit || c = '+' || c = '/'

def b64TryEq (seg after0 : List Char) : Nat → Option (List Char × List Char)
  | 0 =>
    if boundaryAfter after0 (isWordChar (seg.getLastD ' ')) then some (seg, after0)
    else none
  | e + 1 =>
    if after0.take (e + 1) = List.replicate (e + 1) '=' then
      let consumed := seg ++ List.replicate (e + 1) '='
      let after := after0.drop (e + 1)
      if boundaryAfter after false then some (consumed, after)
      else b64TryEq seg after0 e
    else b64TryEq seg after0 e

def b64Shrink (run rest : List Char) : Nat → Option (List Char × List Char)
  | 0 => none
  | len + 1 =>
    if len + 1 < 20 then none
    else
      match b64TryEq (run.take (len + 1)) (run.drop (len + 1) ++ rest) 2 with
      | some (mt, after) => some (mt, after)
      | none => b64Shrink run rest len

def b64MatchAt (pw : Bool) (l : List Char) :
    Option (List Char × List Char × List Char) :=
  match l with
  | [] => none
  | c :: _ =>
    if pw = isWordChar c then none
    else
      let run := l.takeWhile b64Class
      if run.length < 20 then none
      else
        match b64Shrink run (l.drop run.length) run.length with
        | some (mt, after) => some (mt, strL "base64EncodedData***", after)
        | none => none

/-- One compiled pattern of the catalog: its name and the combined
count/replace pass of `maskPatterns`. -/
structure PatternFn where
  name : String
  scan : List Char → List Char × Nat

def patScan (m : Bool → List Char → Option (List Char × List Char × List Char))
    (l : List Char) : List Char × Nat :=
  gScan m (l.length + 1) false l

def patChinesePhone : PatternFn := ⟨"chinese_phone", patScan phoneMatchAt⟩
def patEmail : PatternFn := ⟨"email", patScan emailMatchAt⟩
def patIdCard : PatternFn := ⟨"chinese_id_card", patScan idCardMatchAt⟩
def patJwt : PatternFn := ⟨"jwt_token", patScan jwtMatchAt⟩
def patBase64 : PatternFn := ⟨"base64_data", patScan b64MatchAt⟩

/-- `PATTERNS.filter(p => p.enabled === true)` keeps, in order, exactly
these five patterns. -/
def defaultPatterns : List PatternFn :=
  [patChinesePhone, patEmail, patIdCard, patJwt, patBase64]

/-- One iteration of the `maskPatterns` loop body (scrubber.js 269-309):
a pattern with at least one match flags the change, records its count and
applies its replacement; `url_with_params` is skipped when `maskUrlParams`
is off. -/
def patStep (maskUrlParams : Bool)
    (acc : List Char × Bool × List (String × Nat)) (p : PatternFn) :
    List Char × Bool × List (String × Nat) :=
  if p.name = "url_with_params" && !maskUrlParams then acc
  else if 0 < (p.scan acc.1).2 then
    ((p.scan acc.1).1, true, acc.2.2 ++ [(p.name, (p.scan acc.1).2)])
  else acc

def maskPatterns (maskUrlParams : Bool) (pats : List PatternFn)
    (line : List Char) : List Char × Bool × List (String × Nat) :=
  pats.foldl (patStep maskUrlParams) (line, false, [])

/-! ### `maskJsonLine` (scrubber.js 69-168)

A line starting (after trim) with `{` or `[` is parsed as JSON and the value
is walked recursively: a sensitive object key gets the mask as value, string
leaves are re-examined (nested JSON first, then the per-key regex
`(key\s*[:=]\s*)([^\s\n\r,;&"']+)` with flags `gi`).  If nothing changed the
original line is returned verbatim; otherwise the mutated value is
re-serialized.  The recursion through string leaves is fuel-bounded; the
source has no depth guard. -/

def leafValClass (c : Char) : Bool :=
  !(isJsWs c) && c != ',' && c != ';' && c != '&' && c != '"' && c != Char.ofNat 39

/-- One attempt of the per-key leaf regex at the current position.  Returns
the first capture group (key text plus surrounding whitespace and the
separator) and the rest after the value. -/
def leafMatchAt (key : List Char) (l : List Char) :
    Option (List Char × List Char) :=
  match ciDropStart key l with
  | some (actual, t1) =>
    let ws1 := t1.takeWhile isJsWs
    match t1.dropWhile isJsWs with
    | sc :: t3 =>
      if sc = ':' || sc = '=' then
        let ws2 := t3.takeWhile isJsWs
        let t4 := t3.dropWhile isJsWs
        let v := t4.takeWhile leafValClass
        if v = [] then none
        else some (actual ++ ws1 ++ sc :: ws2, t4.dropWhile leafValClass)
      else none
    | [] => none
  | none => none

/-- Global replace for one sensitive key inside a string leaf. -/
def leafScanGo (mask key : List Char) : Nat → List Char → List Char × Bool
  | 0, l => (l, false)
  | _ + 1, [] => ([], false)
  | n + 1, c :: cs =>
    match leafMatchAt key (c :: cs) with
    | some (pre, rest) =>
      let (out, _) := leafScanGo mask key n rest
      (pre ++ mask ++ out, true)
    | none =>
      let (out, f) := leafScanGo mask key n cs
      (c :: out, f)

structure JsonStepRes where
  isJson : Bool
  masked : List Char
  hasChanges : Bool

/-- The non-recursive shell of `maskJsonLine`, parameterised by the value
walk (`maskValue` in the source). -/
def maskJsonLineCore (doVal : JVal → JVal × Bool) (line : List Char) :
    JsonStepRes :=
  match jsTrim line with
  | c :: tl =>
    if c = '{' || c = '[' then
      match parseJson (c :: tl) with
      | none => ⟨false, line, false⟩
      | some v =>
        if (doVal v).2 then ⟨true, stringifyF (line.length + 1) (doVal v).1, true⟩
        else ⟨true, line, false⟩
    else ⟨false, line, false⟩
  | [] => ⟨false, line, false⟩

/-- JS strict inequality `x !== y` between a parsed value and a string.
In the source (scrubber.js 140) the left operand is the object being
walked, so the comparison is between an object and a string and is
always true — the faithful translation keeps the comparison. -/
def jsStrictNeqStr (v : JVal) (s : List Char) : Bool :=
  match v with
  | .jstr t => t != s
  | _ => true

/-- `maskValue` (scrubber.js 91-150), fuel-bounded. -/
def maskValueF (cfg : ScrubberConfig) : Nat → JVal → JVal × Bool
  | 0, v => (v, false)
  | n + 1, v =>
    match v with
    | .jnull => (v, false)
    | .jbool _ => (v, false)
    | .jnum _ => (v, false)
    | .jstr s =>
      if s = cfg.defaultMask then (.jstr s, false)
      else
        let nested := maskJsonLineCore (fun w => maskValueF cfg n w) s
        if nested.isJson then (.jstr nested.masked, nested.hasChanges)
        else
          let sr := cfg.sensitiveKeys.foldl
            (fun acc key =>
              let oc := leafScanGo cfg.defaultMask key (acc.1.length + 1) acc.1
              (oc.1, acc.2 || oc.2))
            (s, false)
          (if sr.2 then .jstr sr.1 else .jstr s, sr.2)
    | .jarr xs =>
      let r := xs.foldl
        (fun acc x =>
          let mc := maskValueF cfg n x
          (acc.1 ++ [mc.1], acc.2 || mc.2))
        (([] : List JVal), false)
      (.jarr r.1, r.2)
    | .jobj kvs =>
      let r := kvs.foldl
        (fun acc kv =>
          let mc := if cfg.sensitiveKeys.contains (lowerStr kv.1)
            then (JVal.jstr cfg.defaultMask, jsStrictNeqStr (JVal.jobj kvs) cfg.defaultMask)
            else maskValueF cfg n kv.2
          (acc.1 ++ [(kv.1, mc.1)], acc.2 || mc.2))
        (([] : List (List Char × JVal)), false)
      (.jobj r.1, r.2)

def maskJsonLine (cfg : ScrubberConfig) (line : List Char) : JsonStepRes :=
  maskJsonLineCore (fun w => maskValueF cfg (line.length + 1) w) line

/-! ### `processLine` (scrubber.js 317-388)

The pipeline body is parameterised by the four rule steps as fallible
functions (`Except String` models a JS exception escaping the step — e.g. an
invalid user-configured key turning into a bad `RegExp`); the surrounding
`try/catch` of `processLine` is translated into the `match` on the body's
outcome, which makes the function total: no exception reaches the caller. -/

structure ScrubStats where
  totalLines : Nat
  maskedLines : Nat
  errors : Nat
  patternMatches : List (String × Nat)

def statsZero : ScrubStats := ⟨0, 0, 0, []⟩

def bumpAssoc : List (String × Nat) → String → Nat → List (String × Nat)
  | [], k, n => [(k, n)]
  | kv :: rest, k, n =>
    if kv.1 = k then (k, kv.2 + n) :: rest else kv :: bumpAssoc rest k n

/-- `matchCounts` is the `matches` property of the JS result object;
`none` models the error-path object literal, which has no such property. -/
structure LineResult where
  original : List Char
  masked : List Char
  hasChanges : Bool
  matchCounts : Option (List (String × Nat))
  error : Option String

structure StepFns where
  json : List Char → Except String JsonStepRes
  kv : List Char → Except String (List Char × Bool)
  kw : List Char → Except String (List Char × Bool)
  pats : List Char → Except String (List Char × Bool × List (String × Nat))

/-- Lines 335-356 of scrubber.js: JSON step, else the two text passes, then
the pattern pass on the intermediate result. -/
def processLineBody (st : StepFns) (line : List Char) :
    Except String (List Char × Bool × List (String × Nat)) :=
  match st.json line with
  | .error e => .error e
  | .ok j =>
    match (if j.isJson then Except.ok (j.masked, j.hasChanges)
           else
             match st.kv line with
             | .error e => .error e
             | .ok kvr =>
               match st.kw kvr.1 with
               | .error e => .error e
               | .ok kwr => .ok (kwr.1, kvr.2 || kwr.2)) with
    | .error e => .error e
    | .ok rf =>
      match st.pats rf.1 with
      | .error e => .error e
      | .ok pr => .ok (pr.1, rf.2 || pr.2.1, pr.2.2)

def processLineG (st : StepFns) (enableMasking : Bool) (defaultMask : List Char)
    (stats : ScrubStats) (line : List Char) : LineResult × ScrubStats :=
  let stats1 := {stats with totalLines := stats.totalLines + 1}
  if enableMasking = false then
    ({original := line, masked := line, hasChanges := false,
      matchCounts := some [], error := none}, stats1)
  else
    match processLineBody st line with
    | .ok (m, f, ms) =>
      let stats2 := if f then {stats1 with maskedLines := stats1.maskedLines + 1} else stats1
      let stats3 := {stats2 with
        patternMatches := ms.foldl (fun pm nm => bumpAssoc pm nm.1 nm.2) stats2.patternMatches}
      ({original := line, masked := m, hasChanges := f,
        matchCounts := some ms, error := none}, stats3)
    | .error msg =>
      ({original := line, masked := defaultMask, hasChanges := true,
        matchCounts := none, error := some msg},
       {stats1 with errors := stats1.errors + 1})

/-- The concrete, non-throwing steps of this embedding. -/
def stepsOf (cfg : ScrubberConfig) (pats : List PatternFn) : StepFns :=
  { json := fun l => .ok (maskJsonLine cfg l)
    kv := fun l => .ok (maskKeyValuePairs cfg l)
    kw := fun l => .ok (maskSensitiveKeywords cfg l)
    pats := fun l => .ok (maskPatterns cfg.maskUrlParams pats l) }

def processLine (cfg : ScrubberConfig) (pats : List PatternFn)
    (stats : ScrubStats) (line : List Char) : LineResult × ScrubStats :=
  processLineG (stepsOf cfg pats) cfg.enableMasking cfg.defaultMask stats line

/-! ## The file pipeline (`src/core/processor.js`) -/

/-! ### `isBinaryFile` (processor.js 203-240)

The check reads at most 512 bytes from the start of the file.  It reports
binary when a null byte occurs, or when the fraction of bytes `< 32` other
than tab (9), LF (10), CR (13) exceeds `0.3`.  The JS floating comparison
`nonPrintable / bytesRead > 0.3` agrees with the exact rational comparison
for every denominator up to 512 (and for an empty read JS compares
`NaN > 0.3`, which is false, matching `0/0 = 0` in `ℚ`). -/

def isBinaryFile (content : List Nat) : Bool :=
  let buf := content.take 512
  if buf.any (fun b => b = 0) then true
  else
    let nonPrintable :=
      (buf.filter (fun b => b < 32 && b != 9 && b != 10 && b != 13)).length
    decide ((nonPrintable : ℚ) / (buf.length : ℚ) > 3 / 10)

/-- The classifier exactly as the spec sentence words it (claim C8): a byte
counts as non-printable when it is outside printable ASCII (32-126) and is
not tab, LF or CR. -/
def isBinarySpecC8 (content : List Nat) : Bool :=
  let buf := content.take 512
  if buf.any (fun b => b = 0) then true
  else
    let nonPrintable :=
      (buf.filter (fun b => !(32 ≤ b && b ≤ 126) && b != 9 && b != 10 && b != 13)).length
    decide ((nonPrintable : ℚ) / (buf.length : ℚ) > 3 / 10)

/-! ### `validateFile` (processor.js 245-266) -/

structure ValidateOutcome where
  valid : Bool
  error : Option String

/-- `accessErr` models the rejection of `access(F_OK | R_OK)` (missing or
unreadable path).  The checks run in source order; each failure is a thrown
`Error` caught by the surrounding `try`, producing `valid:false` with the
message. -/
def validateFile (accessErr : Option String) (isFile : Bool)
    (size maxFileSize : Nat) (skipBinaryFiles isBinary : Bool) :
    ValidateOutcome :=
  match accessErr with
  | some m => ⟨false, some m⟩
  | none =>
    if !isFile then ⟨false, some "Path is not a file"⟩
    else if maxFileSize < size then
      ⟨false, some s!"File size ({size}) exceeds maximum allowed size ({maxFileSize})"⟩
    else if skipBinaryFiles && isBinary then ⟨false, some "File appears to be binary"⟩
    else ⟨true, none⟩

/-! ### `processFile` (processor.js 281-526)

The streaming section is abstracted into an outcome parameter; everything
before it (entry abort check, validation, output-path assignment, directory
creation, encoding resolution, temp-file creation) and after it (rename,
result construction, catch branch, temp cleanup) is translated directly.
`FileEffects` records which file-system mutations the run performed. -/

structure ProcessingResult where
  inputPath : String
  outputPath : Option String
  success : Bool
  cancelled : Bool
  error : Option String
  stats : Option ScrubStats
  processingTime : Nat

structure FileEffects where
  mkdirCalled : Bool
  tempCreated : Bool
  tempDeleted : Bool
  renamedToFinal : Bool

/-- A JS exception as seen by `processFile`'s catch: its message and whether
`isAbortError` holds for it. -/
structure JsErr where
  message : String
  isAbort : Bool

/-- Outcome of lines 322-480 (streams, line loop, finish wait, rename),
which run only after the temp file exists. -/
inductive BodyOutcome where
  | ok : BodyOutcome
  | threw : JsErr → BodyOutcome

/-- The catch branch (processor.js 486-502): an abort error, or an already
aborted signal, marks the run cancelled with the fixed text `已取消`;
anything else carries the exception message.  The temp file, when created,
is deleted. -/
def processFileCatch (inputPath : String) (outputPathSoFar : Option String)
    (tempCreated : Bool) (e : JsErr) (sigAborted : Bool) :
    ProcessingResult × FileEffects :=
  let cancelled := e.isAbort || sigAborted
  ({ inputPath := inputPath
     outputPath := outputPathSoFar
     success := false
     cancelled := cancelled
     error := if cancelled then some "已取消" else some e.message
     stats := none
     processingTime := 0 },
   { mkdirCalled := false, tempCreated := tempCreated,
     tempDeleted := tempCreated, renamedToFinal := false })

def abortErr : JsErr := ⟨"处理已取消", true⟩

def processFileModel (inputPath outputPath : String) (entryAborted : Bool)
    (validation : ValidateOutcome) (outDirExists : Bool) (encodingOk : Bool)
    (body : BodyOutcome) (catchSigAborted : Bool) (finalStats : ScrubStats)
    (elapsed : Nat) : ProcessingResult × FileEffects :=
  if entryAborted then
    processFileCatch inputPath none false abortErr catchSigAborted
  else if !validation.valid then
    processFileCatch inputPath none false
      ⟨validation.error.getD "", false⟩ catchSigAborted
  else
    let mkdir := !outDirExists
    if !encodingOk then
      let pe := processFileCatch inputPath (some outputPath) false
        ⟨"Unsupported encoding", false⟩ catchSigAborted
      (pe.1, { pe.2 with mkdirCalled := mkdir })
    else
      match body with
      | .threw e =>
        let pe := processFileCatch inputPath (some outputPath) true e catchSigAborted
        (pe.1, { pe.2 with mkdirCalled := mkdir })
      | .ok =>
        ({ inputPath := inputPath
           outputPath := some outputPath
           success := true
           cancelled := false
           error := none
           stats := some finalStats
           processingTime := elapsed },
         { mkdirCalled := mkdir, tempCreated := true,
           tempDeleted := false, renamedToFinal := true })

/-! ### Suspension points and the cancellation signal

`waitForDrain` (processor.js 54-91) and `PauseController.waitIfPaused`
(main.js 77-108) are event waits; each is modelled by the set of occurrences
that can settle it, which is determined by which listeners the function
registers.  The constants record the signal argument each call site inside
`processFile` actually passes. -/

structure AbortSignal where
  aborted : Bool

inductive WaitEvent where
  | drain : WaitEvent
  | streamError : WaitEvent
  | abortSig : WaitEvent
  | resumeSig : WaitEvent
deriving DecidableEq

/-- `waitForDrain` always listens for `drain` and `error`; it registers an
abort listener (or settles immediately) only when a signal is passed. -/
def waitForDrainSettlers (signal : Option AbortSignal) : List WaitEvent :=
  [WaitEvent.drain, WaitEvent.streamError] ++
    (match signal with
     | some _ => [WaitEvent.abortSig]
     | none => [])

/-- `waitIfPaused` returns at once when not paused; otherwise it parks a
resume waiter and, when a signal is supplied, an abort listener. -/
def waitIfPausedSettlers (paused : Bool) (signal : Option AbortSignal) :
    List WaitEvent :=
  if paused then
    [WaitEvent.resumeSig] ++
      (match signal with
       | some _ => [WaitEvent.abortSig]
       | none => [])
  else []

/-- processor.js 450: `await waitForDrain(writer, null)` — the backpressure
wait discards the run's signal and passes `null`. -/
def processFileDrainSignalArg (_runSignal : Option AbortSignal) :
    Option AbortSignal := none

/-- processor.js 434: `await pauseController.waitIfPaused(signal)` — the
pause wait receives the run's signal. -/
def processFilePauseSignalArg (runSignal : Option AbortSignal) :
    Option AbortSignal := runSignal

/-! ### `processFiles` (processor.js 531-580)

Each input spawns a task that pushes exactly one `ProcessingResult` into a
shared array at its own completion time, so the returned array lists the
per-task results in completion order.  A task that never ran its file
(semaphore rejection, abort between acquire and start, or any other throw)
builds its result in the catch branch. -/

inductive TaskOutcome where
  | completed : ProcessingResult → TaskOutcome
  | failed : Bool → String → TaskOutcome

/-- The result one task contributes (the catch branch of processor.js
547-572 for outcomes that bypassed `processFile`). -/
def taskResult (inputPath : String) : TaskOutcome → ProcessingResult
  | .completed r => r
  | .failed true _ =>
    ⟨inputPath, none, false, true, some "已取消", none, 0⟩
  | .failed false m =>
    ⟨inputPath, none, false, false, some m, none, 0⟩

/-- The array `processFiles` returns: one push per task, ordered by the
completion order `completion` (a permutation of the task indices). -/
def processFilesResults (inputs : List String)
    (completion : List (Fin inputs.length))
    (outcome : Fin inputs.length → TaskOutcome) : List ProcessingResult :=
  completion.map (fun i => taskResult (inputs.get i) (outcome i))

/-! ### `Semaphore` (processor.js 644-697)

State machine: `current` running holders, FIFO `queue` of waiter entries
(identified by an arrival counter; the `Bool` mirrors the defensive
`entry.signal.aborted` check of `release`).  `acquire` with an already
aborted signal rejects at once; with a free slot it grants; otherwise it
appends to the queue.  The abort listener of a queued entry removes it from
the queue and rejects it.  `release` decrements, then grants the first
non-aborted queued entry, rejecting aborted ones it passes over. -/

structure SemState where
  max : Nat
  current : Nat
  nextId : Nat
  queue : List (Nat × Bool)

inductive SemOutcome where
  | granted : Nat → SemOutcome
  | rejected : Nat → SemOutcome
deriving DecidableEq

def semInit (n : Nat) : SemState := ⟨n, 0, 0, []⟩

def semAcquire (s : SemState) (sigAborted : Bool) : SemState × List SemOutcome :=
  if sigAborted then ({ s with nextId := s.nextId + 1 }, [.rejected s.nextId])
  else if s.current < s.max then
    ({ s with current := s.current + 1, nextId := s.nextId + 1 }, [.granted s.nextId])
  else
    ({ s with queue := s.queue ++ [(s.nextId, false)], nextId := s.nextId + 1 }, [])

/-- `indexOf` + `splice`: remove the first entry with the given id. -/
def removeFirstId (id : Nat) : List (Nat × Bool) → List (Nat × Bool)
  | [] => []
  | e :: rest => if e.1 = id then rest else e :: removeFirstId id rest

/-- The abort listener of a queued acquisition: if the entry is still
queued it is removed and rejected; otherwise the listener was already
detached and nothing happens. -/
def semAbort (s : SemState) (id : Nat) : SemState × List SemOutcome :=
  if s.queue.any (fun e => e.1 = id) then
    ({ s with queue := removeFirstId id s.queue }, [.rejected id])
  else (s, [])

/-- The shift loop of `release`: aborted entries are rejected and skipped;
the first live entry is granted and the loop stops. -/
def semReleaseLoop : List (Nat × Bool) →
    List (Nat × Bool) × List SemOutcome × Option Nat
  | [] => ([], [], none)
  | e :: rest =>
    if e.2 then
      let r := semReleaseLoop rest
      (r.1, .rejected e.1 :: r.2.1, r.2.2)
    else (rest, [], some e.1)

def semRelease (s : SemState) : SemState × List SemOutcome :=
  let cur := s.current - 1
  let r := semReleaseLoop s.queue
  ({ s with
     current := match r.2.2 with | some _ => cur + 1 | none => cur
     queue := r.1 },
   r.2.1 ++ (match r.2.2 with | some g => [SemOutcome.granted g] | none => []))

/-- States reachable by well-formed use of the semaphore.  The side
condition on `rel` records that `release` is only invoked by a task that
holds a slot (`processFiles` releases in `finally` only when `acquired`
was set by a successful `acquire`). -/
inductive SemReach (n : Nat) : SemState → Prop where
  | init : SemReach n (semInit n)
  | acq (s : SemState) (b : Bool) : SemReach n s → SemReach n (semAcquire s b).1
  | abrt (s : SemState) (id : Nat) : SemReach n s → SemReach n (semAbort s id).1
  | rel (s : SemState) : SemReach n s → 1 ≤ s.current → SemReach n (semRelease s).1

/-- The state invariant maintained by well-formed semaphore use: `max` is
the configured bound, at most `max` slots are held, queued entries carry an
un-aborted signal (an aborted one is removed by its listener in the same
turn), and entry ids are distinct arrival numbers. -/
def SemInv (n : Nat) (s : SemState) : Prop :=
  s.max = n ∧ s.current ≤ n ∧ (∀ e ∈ s.queue, e.2 = false) ∧
  (s.queue.map Prod.fst).Nodup ∧ (∀ e ∈ s.queue, e.1 < s.nextId)

/-- A step-function instance whose JSON step throws, exercising the
`processLine` catch branch on a concrete input. -/
def failingStepsExample : StepFns :=
  { json := fun _ => .error "boom"
    kv := fun l => .ok (l, false)
    kw := fun l => .ok (l, false)
    pats := fun l => .ok (l, false, []) }

/-! ## Supporting lemmas -/

theorem dropStart_append {p l r : List Char} (h : dropStart p l = some r) :
    p ++ r = l := by
  induction p generalizing l with
  | nil => simpa [dropStart, eq_comm] using h
  | cons a as ih =>
    cases l with
    | nil => simp [dropStart] at h
    | cons c cs =>
      by_cases hc : c = a
      · simp [dropStart, hc] at h
        simpa [hc] using congrArg (a :: ·) (ih h)
      · simp [dropStart, hc] at h

theorem ciDropStart_append {p l : List Char} {a r : List Char}
    (h : ciDropStart p l = some (a, r)) : a ++ r = l := by
  induction p generalizing l a r with
  | nil =>
    simp [ciDropStart] at h
    simp [← h.1, ← h.2]
  | cons x xs ih =>
    cases l with
    | nil => simp [ciDropStart] at h
    | cons c cs =>
      by_cases hc : lowerChar c = lowerChar x
      · rw [ciDropStart, if_pos hc] at h
        cases hcd : ciDropStart xs cs with
        | none => rw [hcd] at h; simp [Option.map] at h
        | some p =>
          rw [hcd] at h
          simp [Option.map] at h
          obtain ⟨h2, h3⟩ := h
          have := @ih cs p.1 p.2 (by rw [hcd])
          rw [← h2, ← h3]
          simpa using congrArg (c :: ·) this
      · rw [ciDropStart, if_neg hc] at h; exact absurd h (by simp)


theorem kvTrySeps_append :
    ∀ (seps : List (List Char)) {ws1 t2 sep v r : List Char},
      kvTrySeps ws1 t2 seps = some (sep, v, r) → sep ++ v ++ r = ws1 ++ t2
  | [], _, _, _, _, _, h => by simp [kvTrySeps] at h
  | s0 :: more, ws1, t2, sep, v, r, h => by
    rw [kvTrySeps] at h
    split at h
    · split at h
      · exact kvTrySeps_append more h
      · rename_i t3 hds hv
        have h1 := dropStart_append hds
        have h2 : t3.takeWhile isJsWs ++ t3.dropWhile isJsWs = t3 :=
          List.takeWhile_append_dropWhile isJsWs t3
        have h3 : (t3.dropWhile isJsWs).takeWhile (fun c => !(isJsWs c)) ++
            (t3.dropWhile isJsWs).dropWhile (fun c => !(isJsWs c)) =
            t3.dropWhile isJsWs :=
          List.takeWhile_append_dropWhile (fun c => !(isJsWs c)) (t3.dropWhile isJsWs)
        simp only [Option.some.injEq, Prod.mk.injEq] at h
        obtain ⟨e1, e2, e3⟩ := h
        subst e1 e2 e3
        rw [List.append_assoc _ _ ((t3.dropWhile isJsWs).dropWhile (fun c => !(isJsWs c)))]
        calc ws1 ++ s0 ++ t3.takeWhile isJsWs ++
                ((t3.dropWhile isJsWs).takeWhile (fun c => !(isJsWs c)) ++
                 (t3.dropWhile isJsWs).dropWhile (fun c => !(isJsWs c)))
            = ws1 ++ s0 ++ (t3.takeWhile isJsWs ++ t3.dropWhile isJsWs) := by
              rw [h3, List.append_assoc, List.append_assoc]
          _ = ws1 ++ t2 := by rw [h2, List.append_assoc, h1]
    · exact kvTrySeps_append more h

theorem kvAfterKey_append {seps : List (List Char)} {tail sep v r : List Char}
    (h : kvAfterKey seps tail = some (sep, v, r)) : sep ++ v ++ r = tail := by
  have := kvTrySeps_append seps h
  rwa [List.takeWhile_append_dropWhile] at this

theorem kvTryLens_append :
    ∀ (n : Nat) {seps : List (List Char)} {kmax rest0 k sep v r : List Char},
      kvTryLens seps kmax rest0 n = some (k, sep, v, r) →
      k ++ (sep ++ v ++ r) = kmax ++ rest0
  | 0, _, _, _, _, _, _, _, h => by simp [kvTryLens] at h
  | klen + 1, seps, kmax, rest0, k, sep, v, r, h => by
    rw [kvTryLens] at h
    split at h
    · rename_i sep' v' r' hak
      simp only [Option.some.injEq, Prod.mk.injEq] at h
      obtain ⟨e0, e1, e2, e3⟩ := h
      subst e0 e1 e2 e3
      rw [kvAfterKey_append hak, ← List.append_assoc, List.take_append_drop]
    · exact kvTryLens_append klen h

theorem kvMatchAt_append {seps : List (List Char)} {pw : Bool}
    {l k sep v r : List Char}
    (h : kvMatchAt seps pw l = some (k, sep, v, r)) :
    k ++ sep ++ v ++ r = l := by
  cases l with
  | nil => simp [kvMatchAt] at h
  | cons c cs =>
    rw [kvMatchAt] at h
    by_cases hb : pw = isWordChar c
    · rw [if_pos hb] at h; simp at h
    · rw [if_neg hb] at h
      have := kvTryLens_append _ h
      rw [List.takeWhile_append_dropWhile] at this
      simpa [List.append_assoc] using this

theorem kvScan_unchanged :
    ∀ (n : Nat) (keys seps : List (List Char)) (mask : List Char)
      (pw : Bool) (l : List Char),
      (kvScan keys mask seps n pw l).2 = false →
      (kvScan keys mask seps n pw l).1 = l
  | 0, _, _, _, _, _, _ => rfl
  | _ + 1, _, _, _, _, [], _ => rfl
  | n + 1, keys, seps, mask, pw, c :: cs, h => by
    cases hm : kvMatchAt seps pw (c :: cs) with
    | none =>
      cases hrec : kvScan keys mask seps n (isWordChar c) cs with
      | mk out flag =>
        simp only [kvScan, hm, hrec] at h ⊢
        have ih := kvScan_unchanged n keys seps mask (isWordChar c) cs (by rw [hrec]; exact h)
        rw [hrec] at ih
        have ih2 : out = cs := ih
        rw [ih2]
    | some quad =>
      obtain ⟨k, sep, v, rest⟩ := quad
      cases hrec : kvScan keys mask seps n (isWordChar (v.getLastD ' ')) rest with
      | mk out flag =>
        simp only [kvScan, hm, hrec] at h ⊢
        by_cases hs : keys.contains (lowerStr k)
        · simp only [hs, if_true] at h; simp at h
        · simp only [hs, if_false, Bool.false_eq_true] at h ⊢
          have ih := kvScan_unchanged n keys seps mask (isWordChar (v.getLastD ' ')) rest
            (by rw [hrec]; exact h)
          rw [hrec] at ih
          have ih2 : out = rest := ih
          rw [ih2]
          simpa [List.append_assoc] using kvMatchAt_append hm

theorem kwScan_unchanged :
    ∀ (n : Nat) (keys : List (List Char)) (mask : List Char)
      (pw : Bool) (l : List Char),
      (kwScan keys mask n pw l).2 = false →
      (kwScan keys mask n pw l).1 = l
  | 0, _, _, _, _, _ => rfl
  | _ + 1, _, _, _, [], _ => rfl
  | n + 1, keys, mask, pw, c :: cs, h => by
    cases hm : kwTryKeys pw (c :: cs) keys with
    | none =>
      cases hrec : kwScan keys mask n (isWordChar c) cs with
      | mk out flag =>
        simp only [kwScan, hm, hrec] at h ⊢
        have ih := kwScan_unchanged n keys mask (isWordChar c) cs (by rw [hrec]; exact h)
        rw [hrec] at ih
        have ih2 : out = cs := ih
        rw [ih2]
    | some tri =>
      obtain ⟨m, v, rest⟩ := tri
      cases hrec : kwScan keys mask n (isWordChar (m.getLastD ' ')) rest with
      | mk out flag =>
        simp only [kwScan, hm, hrec] at h
        simp at h

theorem patStep_cases (u : Bool) (st : List Char × Bool × List (String × Nat))
    (p : PatternFn) : patStep u st p = st ∨ (patStep u st p).2.1 = true := by
  unfold patStep
  by_cases h1 : (p.name = "url_with_params" && !u) = true
  · rw [if_pos h1]; exact Or.inl rfl
  · rw [if_neg h1]
    by_cases h2 : 0 < (p.scan st.1).2
    · rw [if_pos h2]; exact Or.inr rfl
    · rw [if_neg h2]; exact Or.inl rfl

theorem patFold_flag_mono :
    ∀ (pats : List PatternFn) (u : Bool)
      (st : List Char × Bool × List (String × Nat)),
      st.2.1 = true → (pats.foldl (patStep u) st).2.1 = true
  | [], _, _, h => h
  | p :: ps, u, st, h => by
    rw [List.foldl_cons]
    rcases patStep_cases u st p with he | ht
    · rw [he]; exact patFold_flag_mono ps u st h
    · exact patFold_flag_mono ps u _ ht

theorem patFold_unchanged :
    ∀ (pats : List PatternFn) (u : Bool)
      (st : List Char × Bool × List (String × Nat)),
      (pats.foldl (patStep u) st).2.1 = false →
      (pats.foldl (patStep u) st).1 = st.1
  | [], _, _, _ => rfl
  | p :: ps, u, st, h => by
    rw [List.foldl_cons] at h ⊢
    rcases patStep_cases u st p with he | ht
    · rw [he] at h ⊢; exact patFold_unchanged ps u st h
    · exact absurd (patFold_flag_mono ps u _ ht) (by rw [h]; simp)

theorem maskPatterns_unchanged {u : Bool} {pats : List PatternFn} {l : List Char}
    (h : (maskPatterns u pats l).2.1 = false) : (maskPatterns u pats l).1 = l := by
  unfold maskPatterns at h ⊢
  exact patFold_unchanged pats u (l, false, []) h

theorem maskJsonLineCore_unchanged (doVal : JVal → JVal × Bool) (line : List Char)
    (h : (maskJsonLineCore doVal line).hasChanges = false) :
    (maskJsonLineCore doVal line).masked = line := by
  cases ht : jsTrim line with
  | nil => simp only [maskJsonLineCore, ht]
  | cons c tl =>
    by_cases hc : (decide (c = '{') || decide (c = '[')) = true
    · cases hp : parseJson (c :: tl) with
      | none => simp only [maskJsonLineCore, ht, hc, hp, if_true]
      | some v =>
        by_cases hch : (doVal v).2 = true
        · simp only [maskJsonLineCore, ht, hc, hp, hch, if_true] at h
          simp at h
        · simp only [maskJsonLineCore, ht, hc, hp, hch, if_true, if_false,
            Bool.false_eq_true] at h ⊢
    · simp only [maskJsonLineCore, ht, hc, Bool.false_eq_true, if_false]

theorem maskJsonLine_unchanged (cfg : ScrubberConfig) (line : List Char)
    (h : (maskJsonLine cfg line).hasChanges = false) :
    (maskJsonLine cfg line).masked = line :=
  maskJsonLineCore_unchanged (fun w => maskValueF cfg (line.length + 1) w) line h

theorem maskKeyValuePairs_unchanged (cfg : ScrubberConfig) (line : List Char)
    (h : (maskKeyValuePairs cfg line).2 = false) :
    (maskKeyValuePairs cfg line).1 = line :=
  kvScan_unchanged (line.length + 1) cfg.sensitiveKeys cfg.kvSeparators
    cfg.defaultMask false line h

theorem maskSensitiveKeywords_unchanged (cfg : ScrubberConfig) (line : List Char)
    (h : (maskSensitiveKeywords cfg line).2 = false) :
    (maskSensitiveKeywords cfg line).1 = line :=
  kwScan_unchanged (line.length + 1) cfg.sensitiveKeys cfg.defaultMask false line h

/-- On the non-throwing concrete steps, a `processLine` result without the
change flag returns the line unmodified: every rule application that could
alter the text also raises the flag. -/
theorem processLine_nochange (cfg : ScrubberConfig) (pats : List PatternFn)
    (stats : ScrubStats) (line : List Char)
    (h : (processLine cfg pats stats line).1.hasChanges = false) :
    (processLine cfg pats stats line).1.masked =
      (processLine cfg pats stats line).1.original := by
  unfold processLine processLineG at h ⊢
  by_cases hen : cfg.enableMasking = false
  · rw [if_pos hen]
  · rw [if_neg hen] at h ⊢
    cases hj : maskJsonLine cfg line with
    | mk isJ mkd hch =>
      cases hK : maskKeyValuePairs cfg line with
      | mk kvm kvf =>
        cases hW : maskSensitiveKeywords cfg kvm with
        | mk kwm kwf =>
          cases isJ with
          | true =>
            cases hP : maskPatterns cfg.maskUrlParams pats mkd with
            | mk pm prest =>
              cases prest with
              | mk pf pms =>
                simp only [processLineBody, stepsOf, hj, hP, if_true] at h ⊢
                simp only [Bool.or_eq_false_iff] at h
                obtain ⟨hch0, hpf0⟩ := h
                have h1 := @maskPatterns_unchanged cfg.maskUrlParams
                  pats mkd (by rw [hP]; exact hpf0)
                rw [hP] at h1
                have h1' : pm = mkd := h1
                have h2 := maskJsonLine_unchanged cfg line (by rw [hj]; exact hch0)
                rw [hj] at h2
                have h2' : mkd = line := h2
                rw [h1', h2']
          | false =>
            cases hP : maskPatterns cfg.maskUrlParams pats kwm with
            | mk pm prest =>
              cases prest with
              | mk pf pms =>
                simp only [processLineBody, stepsOf, hj, hK, hW, hP, if_false,
                  Bool.false_eq_true] at h ⊢
                simp only [Bool.or_eq_false_iff] at h
                obtain ⟨⟨hkv0, hkw0⟩, hpf0⟩ := h
                have h1 := @maskPatterns_unchanged cfg.maskUrlParams
                  pats kwm (by rw [hP]; exact hpf0)
                rw [hP] at h1
                have h1' : pm = kwm := h1
                have h2 := maskSensitiveKeywords_unchanged cfg kvm (by rw [hW]; exact hkw0)
                rw [hW] at h2
                have h2' : kwm = kvm := h2
                have h3 := maskKeyValuePairs_unchanged cfg line (by rw [hK]; exact hkv0)
                rw [hK] at h3
                have h3' : kvm = line := h3
                rw [h1', h2', h3']

/-! ### Semaphore lemmas -/

theorem removeFirstId_sublist (id : Nat) :
    ∀ l : List (Nat × Bool), List.Sublist (removeFirstId id l) l
  | [] => List.Sublist.refl []
  | e :: rest => by
    rw [removeFirstId]
    by_cases he : e.1 = id
    · rw [if_pos he]; exact List.sublist_cons_self e rest
    · rw [if_neg he]; exact List.Sublist.cons₂ e (removeFirstId_sublist id rest)

theorem removeFirstId_not_mem (id : Nat) :
    ∀ l : List (Nat × Bool), (l.map Prod.fst).Nodup →
      id ∉ (removeFirstId id l).map Prod.fst
  | [], _ => by simp [removeFirstId]
  | e :: rest, hnd => by
    rw [removeFirstId]
    by_cases he : e.1 = id
    · rw [if_pos he]
      intro hmem
      rw [List.map_cons] at hnd
      exact (List.nodup_cons.mp hnd).1 (he ▸ hmem)
    · rw [if_neg he]
      intro hmem
      rw [List.map_cons] at hnd hmem
      rcases List.mem_cons.mp hmem with h1 | h1
      · exact he h1.symm
      · exact removeFirstId_not_mem id rest (List.nodup_cons.mp hnd).2 h1

theorem semReleaseLoop_sublist :
    ∀ l : List (Nat × Bool), List.Sublist (semReleaseLoop l).1 l
  | [] => List.Sublist.refl []
  | e :: rest => by
    rw [semReleaseLoop]
    by_cases he : e.2 = true
    · rw [if_pos he]
      exact List.Sublist.trans (semReleaseLoop_sublist rest) (List.sublist_cons_self e rest)
    · rw [if_neg he]
      exact List.sublist_cons_self e rest

theorem semReach_inv {n : Nat} {s : SemState} (h : SemReach n s) : SemInv n s := by
  induction h with
  | init => refine ⟨rfl, Nat.zero_le n, ?_, ?_, ?_⟩ <;> simp [semInit]
  | acq s b _ ih =>
    obtain ⟨hmax, hcur, hflags, hnd, hids⟩ := ih
    unfold semAcquire
    by_cases hb : b = true
    · rw [if_pos hb]
      exact ⟨hmax, hcur, hflags, hnd,
        fun e he => Nat.lt_succ_of_lt (hids e he)⟩
    · rw [if_neg hb]
      by_cases hlt : s.current < s.max
      · rw [if_pos hlt]
        refine ⟨hmax, ?_, hflags, hnd,
          fun e he => Nat.lt_succ_of_lt (hids e he)⟩
        show s.current + 1 ≤ n
        omega
      · rw [if_neg hlt]
        refine ⟨hmax, hcur, ?_, ?_, ?_⟩
        · intro e he
          rcases List.mem_append.mp he with h1 | h1
          · exact hflags e h1
          · simp at h1; rw [h1]
        · rw [List.map_append]
          simp only [List.map_cons, List.map_nil]
          rw [List.nodup_append]
          refine ⟨hnd, List.nodup_singleton _, ?_⟩
          intro x hx
          simp only [List.mem_singleton]
          intro heq
          obtain ⟨e, he, hef⟩ := List.mem_map.mp hx
          have := hids e he
          omega
        · intro e he
          rcases List.mem_append.mp he with h1 | h1
          · exact Nat.lt_succ_of_lt (hids e h1)
          · simp at h1
            subst h1
            exact Nat.lt_succ_self s.nextId
  | abrt s id _ ih =>
    obtain ⟨hmax, hcur, hflags, hnd, hids⟩ := ih
    unfold semAbort
    by_cases ha : s.queue.any (fun e => e.1 = id) = true
    · rw [if_pos ha]
      have hsub := removeFirstId_sublist id s.queue
      exact ⟨hmax, hcur, fun e he => hflags e (hsub.subset he),
        hnd.sublist (hsub.map Prod.fst), fun e he => hids e (hsub.subset he)⟩
    · rw [if_neg ha]
      exact ⟨hmax, hcur, hflags, hnd, hids⟩
  | rel s _ hone ih =>
    obtain ⟨hmax, hcur, hflags, hnd, hids⟩ := ih
    unfold semRelease
    have hsub := semReleaseLoop_sublist s.queue
    refine ⟨hmax, ?_, fun e he => hflags e (hsub.subset he),
      hnd.sublist (hsub.map Prod.fst), fun e he => hids e (hsub.subset he)⟩
    cases hg : (semReleaseLoop s.queue).2.2 with
    | none =>
      simp only [hg]
      show s.current - 1 ≤ n
      omega
    | some g =>
      simp only [hg]
      show s.current - 1 + 1 ≤ n
      omega

theorem semRelease_fifo {s : SemState} (hq : ∀ e ∈ s.queue, e.2 = false)
    {e : Nat × Bool} {t : List (Nat × Bool)} (he : s.queue = e :: t) :
    (semRelease s).2 = [SemOutcome.granted e.1] ∧ (semRelease s).1.queue = t := by
  have hef : e.2 = false := hq e (by rw [he]; exact List.mem_cons_self e t)
  unfold semRelease
  rw [he, semReleaseLoop]
  rw [if_neg (by rw [hef]; exact Bool.false_ne_true)]
  exact ⟨rfl, rfl⟩

theorem semAbort_queued {s : SemState} (hnd : (s.queue.map Prod.fst).Nodup)
    {id : Nat} (hmem : id ∈ s.queue.map Prod.fst) :
    (semAbort s id).2 = [SemOutcome.rejected id] ∧
    id ∉ ((semAbort s id).1.queue.map Prod.fst) := by
  have hany : s.queue.any (fun e => e.1 = id) = true := by
    rw [List.any_eq_true]
    obtain ⟨e, he, hef⟩ := List.mem_map.mp hmem
    exact ⟨e, he, by simp [hef]⟩
  unfold semAbort
  rw [if_pos hany]
  exact ⟨rfl, removeFirstId_not_mem id s.queue hnd⟩

/-! ## Claim theorems -/

/-- Claim C1: `processLine` never raises an exception to its caller — the
translation of its `try/catch` into the `match` on the body outcome is a
total function — and whenever an internal step throws with message `msg`
(masking enabled, otherwise no step runs), the returned result is
fail-closed: `masked` equals the configured default mask, `hasChanges` is
true, `error` carries the fault message, and `stats.errors` grows by exactly
one. -/
theorem C1_processLine_fail_closed (st : StepFns) (em : Bool) (mask : List Char)
    (stats : ScrubStats) (line : List Char) (msg : String)
    (hEn : em = true) (hBody : processLineBody st line = .error msg) :
    (processLineG st em mask stats line).1.masked = mask ∧
    (processLineG st em mask stats line).1.hasChanges = true ∧
    (processLineG st em mask stats line).1.error = some msg ∧
    (processLineG st em mask stats line).2.errors = stats.errors + 1 := by
  subst hEn
  unfold processLineG
  rw [if_neg (by simp), hBody]
  exact ⟨rfl, rfl, rfl, rfl⟩

theorem C1_witness :
    (processLineG failingStepsExample true (strL "***") statsZero (strL "x")).1.masked = strL "***" ∧
    (processLineG failingStepsExample true (strL "***") statsZero (strL "x")).1.hasChanges = true ∧
    (processLineG failingStepsExample true (strL "***") statsZero (strL "x")).1.error = some "boom" ∧
    (processLineG failingStepsExample true (strL "***") statsZero (strL "x")).2.errors = statsZero.errors + 1 :=
  C1_processLine_fail_closed failingStepsExample true (strL "***") statsZero
    (strL "x") "boom" rfl rfl

/-- Claim C2 is refuted as stated: on the line `password=***` the sensitive
kv rule matches and sets `hasChanges`, but the substituted mask equals the
value that was already there, so `masked = original` while `hasChanges` is
true, outside the error path (`error = none`). -/
theorem C2_counterexample :
    (processLine cfgDefault defaultPatterns statsZero (strL "password=***")).1.hasChanges = true ∧
    (processLine cfgDefault defaultPatterns statsZero (strL "password=***")).1.masked =
      (processLine cfgDefault defaultPatterns statsZero (strL "password=***")).1.original ∧
    (processLine cfgDefault defaultPatterns statsZero (strL "password=***")).1.error = none := by
  decide

/-- Claim C2 (amended): one direction of the claimed equivalence holds — a
`processLine` result whose masked text differs from the original always has
`hasChanges = true` (every rule application that can change the text raises
the flag, and the fail-closed error path forces it).  The converse fails
when a matched rule substitutes text identical to what it replaced, as in
the counterexample. -/
theorem C2_hasChanges_amended (cfg : ScrubberConfig) (pats : List PatternFn)
    (stats : ScrubStats) (line : List Char)
    (h : (processLine cfg pats stats line).1.masked ≠
         (processLine cfg pats stats line).1.original) :
    (processLine cfg pats stats line).1.hasChanges = true := by
  cases hcv : (processLine cfg pats stats line).1.hasChanges with
  | true => rfl
  | false => exact absurd (processLine_nochange cfg pats stats line hcv) h

theorem C2_witness :
    (processLine cfgDefault defaultPatterns statsZero (strL "password=abc")).1.hasChanges = true :=
  C2_hasChanges_amended cfgDefault defaultPatterns statsZero (strL "password=abc") (by decide)

/-- Claim C3 is refuted as stated: a cancelled run does carry error text —
the catch branch sets `error` to the fixed string `已取消` alongside
`cancelled = true`, so "no error text" fails (and the cancelled and
error-set dispositions overlap). -/
theorem C3_counterexample :
    (processFileModel "in.log" "out.log" true ⟨true, none⟩ true true .ok false statsZero 0).1.cancelled = true ∧
    (processFileModel "in.log" "out.log" true ⟨true, none⟩ true true .ok false statsZero 0).1.error ≠ none := by
  decide

/-- Claim C3 (amended): every `processFile` result lands in exactly one of
three dispositions — successful (`success` and no error text), cancelled
(`cancelled`, not success, with the fixed error text `已取消`), or failed
(neither flag, with a non-empty error).  The three cases are mutually
exclusive because they pin `success`/`cancelled` to distinct values. -/
theorem C3_disposition_amended (ip op : String) (ea : Bool) (v : ValidateOutcome)
    (ode eok : Bool) (b : BodyOutcome) (csa : Bool) (st : ScrubStats) (el : Nat) :
    ((processFileModel ip op ea v ode eok b csa st el).1.success = true ∧
     (processFileModel ip op ea v ode eok b csa st el).1.cancelled = false ∧
     (processFileModel ip op ea v ode eok b csa st el).1.error = none) ∨
    ((processFileModel ip op ea v ode eok b csa st el).1.success = false ∧
     (processFileModel ip op ea v ode eok b csa st el).1.cancelled = true ∧
     (processFileModel ip op ea v ode eok b csa st el).1.error = some "已取消") ∨
    ((processFileModel ip op ea v ode eok b csa st el).1.success = false ∧
     (processFileModel ip op ea v ode eok b csa st el).1.cancelled = false ∧
     (processFileModel ip op ea v ode eok b csa st el).1.error ≠ none) := by
  unfold processFileModel processFileCatch
  by_cases hea : ea = true
  · subst hea
    rw [if_pos rfl]
    right; left
    exact ⟨rfl, rfl, rfl⟩
  · have hea' : ea = false := by revert hea; cases ea <;> simp
    subst hea'
    rw [if_neg (by simp)]
    by_cases hv : (!v.valid) = true
    · rw [if_pos hv]
      cases csa with
      | true => right; left; exact ⟨rfl, rfl, rfl⟩
      | false => right; right; exact ⟨rfl, rfl, by simp⟩
    · rw [if_neg hv]
      by_cases henc : (!eok) = true
      · rw [if_pos henc]
        cases csa with
        | true => right; left; exact ⟨rfl, rfl, rfl⟩
        | false => right; right; exact ⟨rfl, rfl, by simp⟩
      · rw [if_neg henc]
        cases b with
        | ok => left; exact ⟨rfl, rfl, rfl⟩
        | threw e =>
          obtain ⟨msg, ab⟩ := e
          cases ab with
          | true => right; left; exact ⟨rfl, rfl, rfl⟩
          | false =>
            cases csa with
            | true => right; left; exact ⟨rfl, rfl, rfl⟩
            | false => right; right; exact ⟨rfl, rfl, by simp⟩

/-- Claim C4: the spec requires the cancellation signal to be observed at
every suspension point, but the backpressure wait inside `processFile`
passes `null` for the signal (processor.js 450), so no abort listener is
registered there and only `drain`/`error` can settle it — while the helper
itself supports abort and the pause wait does receive the run's signal.
A run suspended at the drain wait therefore does not observe an abort. -/
theorem C4_drain_wait_unobservable (rs : Option AbortSignal) (sg : AbortSignal) :
    WaitEvent.abortSig ∉ waitForDrainSettlers (processFileDrainSignalArg rs) ∧
    WaitEvent.abortSig ∈ waitForDrainSettlers (some sg) ∧
    WaitEvent.abortSig ∈ waitIfPausedSettlers true (processFilePauseSignalArg (some sg)) := by
  refine ⟨?_, ?_, ?_⟩ <;>
    simp [waitForDrainSettlers, waitIfPausedSettlers, processFileDrainSignalArg,
      processFilePauseSignalArg]

/-- Claim C5: in every reachable semaphore state, at most `n` slots are
held (`current ≤ n`); a release grants the queue head — waiters are served
in FIFO arrival order, since `acquire` appends to the tail — and the abort
listener of a queued acquisition rejects it and removes it from the queue,
so it can never be granted later. -/
theorem C5_semaphore_invariants (n : Nat) (s : SemState) (h : SemReach n s) :
    s.current ≤ n ∧
    (∀ e t, s.queue = e :: t →
      (semRelease s).2 = [SemOutcome.granted e.1] ∧ (semRelease s).1.queue = t) ∧
    (∀ id, id ∈ s.queue.map Prod.fst →
      (semAbort s id).2 = [SemOutcome.rejected id] ∧
      id ∉ ((semAbort s id).1.queue.map Prod.fst)) := by
  obtain ⟨hmax, hcur, hflags, hnd, hids⟩ := semReach_inv h
  exact ⟨hmax ▸ hcur, fun e t he => semRelease_fifo hflags he,
    fun id hm => semAbort_queued hnd hm⟩

theorem C5_witness :
    (semAcquire (semAcquire (semInit 1) false).1 false).1.current ≤ 1 ∧
    (semRelease (semAcquire (semAcquire (semInit 1) false).1 false).1).2 =
      [SemOutcome.granted 1] ∧
    (semAbort (semAcquire (semAcquire (semInit 1) false).1 false).1 1).2 =
      [SemOutcome.rejected 1] := by
  have hr : SemReach 1 (semAcquire (semAcquire (semInit 1) false).1 false).1 :=
    SemReach.acq _ false (SemReach.acq _ false SemReach.init)
  have hc := C5_semaphore_invariants 1 _ hr
  refine ⟨hc.1, ?_, ?_⟩
  · exact (hc.2.1 (1, false) [] (by decide)).1
  · exact (hc.2.2 1 (by decide)).1

/-- Claim C6 is refuted as stated: with two inputs completing in reverse
order, the array `processFiles` returns lists the second file's result
first — the results are pushed in completion order and never reordered
inside `processFiles` (the input-order sort happens in the caller). -/
theorem C6_counterexample :
    (processFilesResults ["a", "b"]
        [⟨1, by decide⟩, ⟨0, by decide⟩]
        (fun _ => TaskOutcome.failed false "disk error")).map ProcessingResult.inputPath ≠
      ["a", "b"] := by
  decide

/-- Claim C6 (amended): a batch always yields exactly one result per input
file, each carrying its own input path — the returned array is a
permutation of the per-input results, ordered by task completion rather
than input order. -/
theorem C6_batch_amended (inputs : List String)
    (completion : List (Fin inputs.length))
    (outcome : Fin inputs.length → TaskOutcome)
    (hperm : completion.Perm (List.finRange inputs.length))
    (hip : ∀ i r, outcome i = TaskOutcome.completed r → r.inputPath = inputs.get i) :
    (processFilesResults inputs completion outcome).length = inputs.length ∧
    (processFilesResults inputs completion outcome).Perm
      ((List.finRange inputs.length).map
        (fun i => taskResult (inputs.get i) (outcome i))) ∧
    ((processFilesResults inputs completion outcome).map ProcessingResult.inputPath).Perm
      inputs := by
  refine ⟨?_, ?_, ?_⟩
  · rw [processFilesResults, List.length_map, hperm.length_eq, List.length_finRange]
  · exact hperm.map _
  · have hmap : (processFilesResults inputs completion outcome).map ProcessingResult.inputPath
        = completion.map (fun i => inputs.get i) := by
      rw [processFilesResults, List.map_map]
      refine List.map_congr_left ?_
      intro i _
      cases ho : outcome i with
      | completed r => simp [taskResult, ho, hip i r ho]
      | failed c m => cases c <;> simp [taskResult, ho]
    rw [hmap]
    exact (hperm.map _).trans (by rw [List.finRange_map_get])

theorem C6_witness :
    (processFilesResults ["a", "b"]
        [⟨1, by decide⟩, ⟨0, by decide⟩]
        (fun _ => TaskOutcome.failed false "disk error")).length = 2 ∧
    ((processFilesResults ["a", "b"]
        [⟨1, by decide⟩, ⟨0, by decide⟩]
        (fun _ => TaskOutcome.failed false "disk error")).map ProcessingResult.inputPath).Perm
      ["a", "b"] := by
  have hc := C6_batch_amended ["a", "b"]
    [⟨1, by decide⟩, ⟨0, by decide⟩]
    (fun _ => TaskOutcome.failed false "disk error")
    (by decide)
    (fun i r h => TaskOutcome.noConfusion h)
  exact ⟨hc.1, hc.2.2⟩

/-- Claim C7: with the default configuration,
`{"password":"abc","user":"bob"}` masks to `{"password":"***","user":"bob"}`,
and running `processLine` again on that output returns the same masked
string — the masked output is a fixed point. -/
theorem C7_json_fixed_point :
    (processLine cfgDefault defaultPatterns statsZero
        (strL "\x7b\"password\":\"abc\",\"user\":\"bob\"\x7d")).1.masked =
      strL "\x7b\"password\":\"***\",\"user\":\"bob\"\x7d" ∧
    (processLine cfgDefault defaultPatterns statsZero
        (strL "\x7b\"password\":\"***\",\"user\":\"bob\"\x7d")).1.masked =
      strL "\x7b\"password\":\"***\",\"user\":\"bob\"\x7d" := by
  decide

/-- Claim C8 is refuted as stated: a file whose first 512 bytes are all
outside printable ASCII but not below 32 (here the single byte 200) is
classified binary by the claim's criterion, yet `isBinaryFile` reports
false — the code counts only bytes `< 32` (minus tab/LF/CR) as
non-printable. -/
theorem C8_counterexample :
    isBinarySpecC8 [200] = true ∧ isBinaryFile [200] = false := by
  constructor
  · have h1 : isBinarySpecC8 [200] =
        decide ((((1 : Nat) : ℚ)) / (((1 : Nat) : ℚ)) > 3 / 10) := rfl
    rw [h1, decide_eq_true_iff]
    norm_num
  · have h2 : isBinaryFile [200] =
        decide ((((0 : Nat) : ℚ)) / (((1 : Nat) : ℚ)) > 3 / 10) := rfl
    rw [h2, decide_eq_false_iff_not]
    norm_num

/-- Claim C8 (amended): the binary check depends only on the first 512
bytes, and classifies binary exactly when an inspected byte is null or more
than 30% of the inspected bytes are control characters below 32 other than
tab, LF and CR (bytes at or above 127 are not counted as non-printable). -/
theorem C8_binary_check_amended (content : List Nat) :
    isBinaryFile content = isBinaryFile (content.take 512) ∧
    (isBinaryFile content = true ↔
      (∃ b ∈ content.take 512, b = 0) ∨
      3 * (content.take 512).length <
        10 * ((content.take 512).filter
          (fun b => b < 32 && b != 9 && b != 10 && b != 13)).length) := by
  constructor
  · unfold isBinaryFile
    rw [List.take_take]
    norm_num
  · unfold isBinaryFile
    by_cases hz : (content.take 512).any (fun b => b = 0) = true
    · rw [if_pos hz]
      simp only [true_iff]
      left
      rw [List.any_eq_true] at hz
      obtain ⟨x, hx, hx0⟩ := hz
      exact ⟨x, hx, by simpa using hx0⟩
    · rw [if_neg hz]
      rw [decide_eq_true_iff]
      have hnz : ¬ ∃ b ∈ content.take 512, b = 0 := by
        intro ⟨x, hx, hx0⟩
        exact hz (List.any_eq_true.mpr ⟨x, hx, by simpa using hx0⟩)
      simp only [hnz, false_or]
      have hle : ((content.take 512).filter
          (fun b => b < 32 && b != 9 && b != 10 && b != 13)).length ≤
          (content.take 512).length := List.length_filter_le _ _
      rcases Nat.eq_zero_or_pos (content.take 512).length with h0 | hpos
      · have hf0 : ((content.take 512).filter
            (fun b => b < 32 && b != 9 && b != 10 && b != 13)).length = 0 := by omega
        rw [hf0, h0]
        norm_num
      · rw [gt_iff_lt, div_lt_div_iff₀ (by norm_num) (by exact_mod_cast hpos)]
        constructor
        · intro h'
          have h'' : (3 * (content.take 512).length : ℚ) <
              10 * ((content.take 512).filter
                (fun b => b < 32 && b != 9 && b != 10 && b != 13)).length := by
            push_cast at h' ⊢
            linarith
          exact_mod_cast h''
        · intro h'
          have h'' : (3 * (content.take 512).length : ℚ) <
              10 * ((content.take 512).filter
                (fun b => b < 32 && b != 9 && b != 10 && b != 13)).length := by
            exact_mod_cast h'
          push_cast at h'' ⊢
          linarith

/-- Claim C9: a file failing validation — in particular one whose size
exceeds `maxFileSize` — produces a failed result and no file-system
mutation at all: the output directory is not created, no temp file is
written, nothing is renamed onto the final path, and the result carries no
output path. -/
theorem C9_oversized_no_output (ip op : String) (ea : Bool)
    (accessErr : Option String) (isFile : Bool) (size maxFS : Nat)
    (skipB isB ode eok : Bool) (b : BodyOutcome) (csa : Bool)
    (st : ScrubStats) (el : Nat) (hsize : maxFS < size) :
    (processFileModel ip op ea (validateFile accessErr isFile size maxFS skipB isB)
        ode eok b csa st el).1.success = false ∧
    (processFileModel ip op ea (validateFile accessErr isFile size maxFS skipB isB)
        ode eok b csa st el).2.tempCreated = false ∧
    (processFileModel ip op ea (validateFile accessErr isFile size maxFS skipB isB)
        ode eok b csa st el).2.renamedToFinal = false ∧
    (processFileModel ip op ea (validateFile accessErr isFile size maxFS skipB isB)
        ode eok b csa st el).2.mkdirCalled = false ∧
    (processFileModel ip op ea (validateFile accessErr isFile size maxFS skipB isB)
        ode eok b csa st el).1.outputPath = none := by
  have hval : (validateFile accessErr isFile size maxFS skipB isB).valid = false := by
    unfold validateFile
    cases accessErr with
    | some m => rfl
    | none =>
      by_cases hf : (!isFile) = true
      · rw [if_pos hf]
      · rw [if_neg hf, if_pos hsize]
  unfold processFileModel processFileCatch
  by_cases hea : ea = true
  · rw [if_pos hea]
    exact ⟨rfl, rfl, rfl, rfl, rfl⟩
  · rw [if_neg hea, if_pos (by rw [hval]; rfl)]
    exact ⟨rfl, rfl, rfl, rfl, rfl⟩

theorem C9_witness :
    (processFileModel "big.log" "big.masked.log" false
        (validateFile none true 11 10 true false) true true .ok false statsZero 0).1.success = false ∧
    (processFileModel "big.log" "big.masked.log" false
        (validateFile none true 11 10 true false) true true .ok false statsZero 0).2.tempCreated = false ∧
    (processFileModel "big.log" "big.masked.log" false
        (validateFile none true 11 10 true false) true true .ok false statsZero 0).2.renamedToFinal = false ∧
    (processFileModel "big.log" "big.masked.log" false
        (validateFile none true 11 10 true false) true true .ok false statsZero 0).2.mkdirCalled = false ∧
    (processFileModel "big.log" "big.masked.log" false
        (validateFile none true 11 10 true false) true true .ok false statsZero 0).1.outputPath = none := by
  have := C9_oversized_no_output "big.log" "big.masked.log" false none true 11 10
    true false true true .ok false statsZero 0 (by decide)
  exact this

/-- Claim C10 is contradicted by the code at scrubber.js 140: for a line
whose only string leaf already equals the default mask, the walk still
reports a change — the guard compares the parent object (not the leaf)
against the mask, which never holds — so the line is re-serialized
(whitespace is lost) and counted as masked. -/
theorem C10_mask_leaf_divergence :
    (maskJsonLine cfgDefault (strL "\x7b \"password\": \"***\" \x7d")).hasChanges = true ∧
    (maskJsonLine cfgDefault (strL "\x7b \"password\": \"***\" \x7d")).masked ≠
      strL "\x7b \"password\": \"***\" \x7d" ∧
    (maskJsonLine cfgDefault (strL "\x7b \"password\": \"***\" \x7d")).masked =
      strL "\x7b\"password\":\"***\"\x7d" ∧
    (processLine cfgDefault defaultPatterns statsZero
        (strL "\x7b \"password\": \"***\" \x7d")).2.maskedLines = 1 := by
  decide

end LogCleaner
